import Mathlib

/-!
Verification of the core data-filtering, aggregation and correlation logic
of the groundwater-quality reporting script (`wellWQ.py`).

The script is a pandas/streamlit program.  Rows of the loaded table are
modelled by `Row`: the `Basin` and `Season` text cells and the derived
`Year` cell may be missing (pandas `NaN`/`NaT` is modelled by `none`), and
the numeric parameter cells are an association list from column name to an
optional rational value.  Missing numeric cells (`NaN`) are `none`; present
values are exact rationals standing for the floats of the source data.
-/

structure Row where
  basin : Option String
  date : Option (Nat × Nat × Nat)
  year : Option Int
  season : Option String
  params : List (String × Option ℚ)
deriving DecidableEq, Repr

/-- Source `filter_by_year(df, year_range)`:
`df[(df['Year'] >= start) & (df['Year'] <= end)]`.  A pandas comparison
with `NaN` is `False`, so a row whose `Year` is null never matches. -/
def filter_by_year (df : List Row) (start stop : Int) : List Row :=
  df.filter fun r =>
    match r.year with
    | some y => decide (start ≤ y) && decide (y ≤ stop)
    | none => false

/-- The source's two-step selection `filtered = df[df['Basin'] == basin]`
followed by `filtered = filter_by_year(filtered, year_range)`.  String
equality of pandas is exact and case-sensitive, and `NaN == basin` is
`False`. -/
def filtered (df : List Row) (basin : String) (y0 y1 : Int) : List Row :=
  filter_by_year (df.filter fun r => decide (r.basin = some basin)) y0 y1

/-- The combined row predicate the two filter steps implement. -/
def matchesB (basin : String) (y0 y1 : Int) (r : Row) : Bool :=
  decide (r.basin = some basin) &&
    (match r.year with
     | some y => decide (y0 ≤ y) && decide (y ≤ y1)
     | none => false)

/-!
## Schema Normalizer: numeric parameter columns (source lines 90-92)

`parameters = df.select_dtypes(include=[np.number]).columns.tolist()`
followed by removal of the excluded identifier columns.  The dtype view of
a frame is modelled by `Schema`: each column name is tagged with whether
its dtype is numeric.
-/

inductive Dtype where
  | numeric
  | object
deriving DecidableEq, Repr

structure Schema where
  cols : List (String × Dtype)
deriving DecidableEq, Repr

/-- Source `df.select_dtypes(include=[np.number]).columns.tolist()`. -/
def select_number (sch : Schema) : List String :=
  (sch.cols.filter fun c => decide (c.2 = Dtype.numeric)).map (·.1)

/-- Source `exclude_cols = ['OBJECTID_12', 'Latitude', 'Longitude', 'Year']`. -/
def exclude_cols : List String := ["OBJECTID_12", "Latitude", "Longitude", "Year"]

/-- Source `parameters = [p for p in parameters if p not in exclude_cols]`. -/
def parameters (sch : Schema) : List String :=
  (select_number sch).filter fun p => decide (p ∉ exclude_cols)

/-!
## Schema Normalizer: date coercion (source lines 63-65)

`df['Date'] = pd.to_datetime(df['Date'], errors='coerce')` followed by
`df['Year'] = df['Date'].dt.year`.  With `errors='coerce'` a cell that
fails to parse becomes `NaT` instead of raising; `.dt.year` of `NaT` is
`NaN`.  The parser is modelled on the `YYYY-MM-DD` format the data files
use (help text line 118), validating the calendar (leap years included);
any other shape fails and coerces to null.
-/

def isLeap (y : Nat) : Bool :=
  (y % 4 == 0 && y % 100 != 0) || y % 400 == 0

def daysInMonth (y m : Nat) : Nat :=
  if m = 2 then (if isLeap y then 29 else 28)
  else if m = 4 ∨ m = 6 ∨ m = 9 ∨ m = 11 then 30
  else if 1 ≤ m ∧ m ≤ 12 then 31
  else 0

def parseDate (s : String) : Option (Nat × Nat × Nat) :=
  match s.splitOn "-" with
  | [ys, ms, ds] =>
    match ys.toNat?, ms.toNat?, ds.toNat? with
    | some y, some m, some d =>
      if 1 ≤ m ∧ m ≤ 12 ∧ 1 ≤ d ∧ d ≤ daysInMonth y m then some (y, m, d) else none
    | _, _, _ => none
  | _ => none

/-- Source `pd.to_datetime(cell, errors='coerce')`: a missing cell stays missing,
an unparseable cell becomes null (`NaT`), never an error. -/
def to_datetime (cell : Option String) : Option (Nat × Nat × Nat) :=
  cell.bind parseDate

/-- The raw uploaded table row, before `load_data` normalises it: every
cell is text or missing. -/
structure RawRow where
  basinCell : Option String
  dateCell : Option String
  seasonCell : Option String
  paramCells : List (String × Option ℚ)
deriving DecidableEq, Repr

/-- Source `load_data` (lines 54-65), restricted to its per-row effect:
coerce the `Date` column and derive `Year` as the date's calendar year. -/
def load_data (raws : List RawRow) : List Row :=
  raws.map fun rr =>
    { basin := rr.basinCell
      date := to_datetime rr.dateCell
      year := (to_datetime rr.dateCell).map fun t => (t.1 : Int)
      season := rr.seasonCell
      params := rr.paramCells }

/-!
## Aggregator: the statistics (source lines 139 and 145)

`stat = st.sidebar.multiselect("Select Statistics", ["mean", "median",
"min", "max", "std", "count"], default=["mean"])` and
`results = filtered.groupby(['Year', 'Season'])[param].agg(stat).reset_index()`.

The numeric semantics of the pandas aggregations over one group's cells
(`NaN`-ignoring, sample standard deviation with `ddof=1`) are embedded
over exact rationals; the standard deviation's square root lives in `ℝ`.
A statistic name outside the offered set cannot be produced by the widget,
and `.agg` raises on a name that is not a known aggregation — modelled as
the invalid-statistic error.
-/

inductive AggError where
  | invalidStatistic
deriving DecidableEq, Repr

/-- The statistics offered by the source's multiselect (line 139). -/
def STAT_OPTIONS : List String := ["mean", "median", "min", "max", "std", "count"]

def isValidStat (s : String) : Bool := decide (s ∈ STAT_OPTIONS)

/-- Mean of a list of rationals, `pandas` style: the empty mean is the
`0/0` junk value (never exposed: callers guard emptiness). -/
def meanQ (xs : List ℚ) : ℚ := xs.sum / xs.length

/-- Centered cross sum `Σ (xᵢ - mx) * (yᵢ - my)` over the zipped lists. -/
def scAux (mx my : ℚ) : List ℚ → List ℚ → ℚ
  | a :: as, b :: bs => (a - mx) * (b - my) + scAux mx my as bs
  | _, _ => 0

/-- Centered cross sum about the two lists' own means:
`Σ (xᵢ - x̄) * (yᵢ - ȳ)`. -/
def sc (xs ys : List ℚ) : ℚ := scAux (meanQ xs) (meanQ ys) xs ys

/-- Sample variance with `ddof=1` over the non-null cells, pandas `std²`:
`NaN` (none) when fewer than two non-null values remain. -/
def sampleVarQ (vals : List (Option ℚ)) : Option ℚ :=
  let vs := vals.filterMap id
  if vs.length < 2 then none
  else some (sc vs vs / ((vs.length : ℚ) - 1))

/-- Median of the non-null cells: middle value, or the average of the two
middle values for even counts; `NaN` (none) on an empty list. -/
def medianQ (vs : List ℚ) : Option ℚ :=
  let s := List.insertionSort (fun a b : ℚ => a ≤ b) vs
  if s.length = 0 then none
  else if s.length % 2 = 1 then some (s.getD (s.length / 2) 0)
  else some ((s.getD (s.length / 2 - 1) 0 + s.getD (s.length / 2) 0) / 2)

/-- The value one pandas aggregation produces on one group's cells
(`none` = `NaN`).  Only called on names in `STAT_OPTIONS`. -/
noncomputable def aggStatVal (s : String) (vals : List (Option ℚ)) : Option ℝ :=
  let vs := vals.filterMap id
  match s with
  | "mean" => if vs.length = 0 then none else some ((meanQ vs : ℚ) : ℝ)
  | "median" => (medianQ vs).map fun q : ℚ => (q : ℝ)
  | "min" => (vs.min?).map fun q : ℚ => (q : ℝ)
  | "max" => (vs.max?).map fun q : ℚ => (q : ℝ)
  | "std" => (sampleVarQ vals).map fun v : ℚ => Real.sqrt (v : ℝ)
  | "count" => some (vs.length : ℝ)
  | _ => none

/-- One pandas aggregation call on one group: a name outside the known
set raises (`.agg('avg')` has no aggregation to fall back to). -/
noncomputable def aggStat (s : String) (vals : List (Option ℚ)) :
    Except AggError (Option ℝ) :=
  if isValidStat s then Except.ok (aggStatVal s vals) else Except.error .invalidStatistic

/-!
## Aggregator: grouping by `(Year, Season)` (source line 145)

`filtered.groupby(['Year', 'Season'])` drops rows whose `Year` or `Season`
key is null (`dropna=True`, the default) and, with the default
`sort=True`, emits the groups sorted ascending by the `(Year, Season)`
key — the season component ordered lexicographically by code points, the
same order Python gives strings, NOT by first appearance.
-/

/-- The `(Year, Season)` group key of a row, none when either is null. -/
def keyOf (r : Row) : Option (Int × String) :=
  match r.year, r.season with
  | some y, some s => some (y, s)
  | _, _ => none

/-- The distinct group keys in order of first appearance. -/
def uniqueKeys (rows : List Row) : List (Int × String) :=
  (rows.filterMap keyOf).foldl (fun acc k => if k ∈ acc then acc else acc ++ [k]) []

/-- Code-point lexicographic order on character lists: how Python (and so
pandas `sort=True`) compares the season strings. -/
def charListLe : List Char → List Char → Bool
  | [], _ => true
  | _ :: _, [] => false
  | a :: as, b :: bs =>
    if a < b then true else if b < a then false else charListLe as bs

/-- Code-point lexicographic order on strings. -/
def strLe (s t : String) : Bool := charListLe s.data t.data

/-- Ascending order on `(Year, Season)` keys: by year, then by season
lexicographically — the order `groupby(sort=True)` emits. -/
def keyLEb (a b : Int × String) : Bool :=
  decide (a.1 < b.1) || (decide (a.1 = b.1) && strLe a.2 b.2)

/-- Ordering only by the year component, for the stable sort the spec's
claimed output order amounts to. -/
def yearLEb (a b : Int × String) : Bool := decide (a.1 ≤ b.1)

/-- Ordered insertion of a key into a sorted key list. -/
def insertKey (le : (Int × String) → (Int × String) → Bool) (k : Int × String) :
    List (Int × String) → List (Int × String)
  | [] => [k]
  | x :: xs => if le k x then k :: x :: xs else x :: insertKey le k xs

/-- Insertion sort of the key list: stable, as pandas sorting is. -/
def sortKeys (le : (Int × String) → (Int × String) → Bool)
    (l : List (Int × String)) : List (Int × String) :=
  l.foldr (insertKey le) []

/-- The group keys of the aggregation output, in output order. -/
def resultKeys (rows : List Row) : List (Int × String) :=
  sortKeys keyLEb (uniqueKeys rows)

/-- Modelled from the spec: the output key order §4.3 claims — ascending
by year, then by season in first-appearance order (a stable sort of the
first-appearance keys by year alone). -/
def specClaimedKeys (rows : List Row) : List (Int × String) :=
  sortKeys yearLEb (uniqueKeys rows)

/-- The parameter cells of one group, in row order (null cells kept: the
statistics ignore them as pandas does). -/
def groupVals (rows : List Row) (param : String) (k : Int × String) :
    List (Option ℚ) :=
  (rows.filter fun r => decide (keyOf r = some k)).map fun r =>
    ((r.params.lookup param).bind id)

/-- Source `filtered.groupby(['Year','Season'])[param].agg(stat).reset_index()`:
one output row per group key in sorted key order, one aggregated value per
requested statistic; raises if any requested name is unknown. -/
noncomputable def results (rows : List Row) (param : String) (stats : List String) :
    Except AggError (List ((Int × String) × List (Option ℝ))) :=
  if stats.all isValidStat then
    Except.ok ((resultKeys rows).map fun k =>
      (k, stats.map fun s => aggStatVal s (groupVals rows param k)))
  else Except.error .invalidStatistic

/-- The Descriptive Statistics branch (source lines 144-149): a non-empty
filtered subset is aggregated and displayed, an empty one produces the
"No data available" warning. -/
inductive DescOutcome where
  | noData
  | table (t : List ((Int × String) × List (Option ℝ)))
  | failed (e : AggError)

noncomputable def descriptiveBranch (df : List Row) (basin : String) (y0 y1 : Int)
    (param : String) (stats : List String) : DescOutcome :=
  let f := filtered df basin y0 y1
  if f.isEmpty then DescOutcome.noData
  else
    match results f param stats with
    | Except.ok t => DescOutcome.table t
    | Except.error e => DescOutcome.failed e

/-!
## Correlation Engine (source lines 213-218)

`corr_df = filtered[parameters].dropna()` and
`corr = corr_df.corr(method=corr_method)` with
`corr_method = st.sidebar.radio(..., ["pearson", "spearman"])`.

`dropna()` drops every row with a null in any selected column before any
correlation is computed.  A pandas correlation entry is
`S_xy / sqrt(S_xx * S_yy)` over the centered columns; when either column
is constant over the complete rows (zero variance — which includes having
fewer than two complete rows) the divisor is zero and the entry is `NaN`
(`none` here), the diagonal included.  For `spearman` the columns are
replaced by their average ranks (ties get the mean rank) first.  The radio
widget restricts the method to the two names; `corr` with a name it does
not know raises — modelled as the unknown-method error.
-/

inductive CorrError where
  | unknownMethod
deriving DecidableEq, Repr

/-- The row of `filtered[parameters]`: the selected columns' cells. -/
def projParams (cols : List String) (r : Row) : List (Option ℚ) :=
  cols.map fun c => ((r.params.lookup c).bind id)

/-- All cells present, or nothing: the row survives `dropna()` iff. -/
def allSome : List (Option ℚ) → Option (List ℚ)
  | [] => some []
  | none :: _ => none
  | some q :: t => (allSome t).map fun u => q :: u

/-- Source `corr_df = filtered[parameters].dropna()`: the complete-case rows. -/
def corr_df (cols : List String) (rows : List Row) : List (List ℚ) :=
  (rows.map (projParams cols)).filterMap allSome

/-- Column `j` of the complete-case table. -/
def colm (j : Nat) (data : List (List ℚ)) : List ℚ :=
  data.map fun r => r.getD j 0

/-- The average rank (1-based, ties get the mean of their positions) of
value `v` within `xs` — pandas `rank(method='average')`. -/
def rankVal (xs : List ℚ) (v : ℚ) : ℚ :=
  ((xs.countP fun x => decide (x < v)) : ℚ) +
    (((xs.countP fun x => decide (x = v)) : ℚ) + 1) / 2

/-- A column replaced by its average ranks. -/
def rankCol (xs : List ℚ) : List ℚ := xs.map (rankVal xs)

/-- A list is constant when all its members agree. -/
def IsConst (xs : List ℚ) : Prop := ∀ a ∈ xs, ∀ b ∈ xs, a = b

instance (xs : List ℚ) : Decidable (IsConst xs) :=
  inferInstanceAs (Decidable (∀ a ∈ xs, ∀ b ∈ xs, a = b))

/-- One pearson correlation entry: `NaN` (none) when either column has
zero centered square sum, else `S_xy / sqrt(S_xx * S_yy)`. -/
noncomputable def pearsonEntry (xs ys : List ℚ) : Option ℝ :=
  if sc xs xs = 0 ∨ sc ys ys = 0 then none
  else some ((sc xs ys : ℚ) / Real.sqrt ((sc xs xs * sc ys ys : ℚ) : ℝ))

/-- One spearman entry: pearson on the rank-transformed columns. -/
noncomputable def spearmanEntry (xs ys : List ℚ) : Option ℝ :=
  pearsonEntry (rankCol xs) (rankCol ys)

def corr_method_valid (method : String) : Bool :=
  method == "pearson" || method == "spearman"

/-- One correlation entry for the given method (only called on the two
names the radio widget offers). -/
noncomputable def corrEntry (method : String) (xs ys : List ℚ) : Option ℝ :=
  if method = "pearson" then pearsonEntry xs ys
  else if method = "spearman" then spearmanEntry xs ys
  else none

/-- The square correlation matrix over the selected columns. -/
noncomputable def corrGrid (method : String) (cols : List String) (rows : List Row) :
    List (List (Option ℝ)) :=
  (List.range cols.length).map fun i =>
    (List.range cols.length).map fun j =>
      corrEntry method (colm i (corr_df cols rows)) (colm j (corr_df cols rows))

/-- Source `corr = corr_df.corr(method=corr_method)`: a method name pandas does
not recognise raises, the two offered names produce the matrix. -/
noncomputable def corr (method : String) (cols : List String) (rows : List Row) :
    Except CorrError (List (List (Option ℝ))) :=
  if corr_method_valid method then Except.ok (corrGrid method cols rows)
  else Except.error .unknownMethod

/-- Entry `(i, j)` of a matrix given as rows of optional reals. -/
def entryAt (M : List (List (Option ℝ))) (i j : Nat) : Option ℝ :=
  (M.getD i []).getD j none

/-- The Correlation Analysis branch (source lines 210-235): non-empty
filtered subset → correlation matrix; empty → "No data available". -/
inductive CorrOutcome where
  | noData
  | matrix (m : List (List (Option ℝ)))
  | failed (e : CorrError)

noncomputable def correlationBranch (df : List Row) (basin : String) (y0 y1 : Int)
    (cols : List String) (method : String) : CorrOutcome :=
  let f := filtered df basin y0 y1
  if f.isEmpty then CorrOutcome.noData
  else
    match corr method cols f with
    | Except.ok m => CorrOutcome.matrix m
    | Except.error e => CorrOutcome.failed e

/-!
## Concrete datasets used by the per-claim witnesses and counterexamples
-/

/-- Two complete rows whose `EC` and `TDS` columns are both non-constant. -/
def c2rows : List Row :=
  [⟨some "Vaigai", none, some 2015, some "Pre-Monsoon",
      [("EC", some 400), ("TDS", some 800)]⟩,
   ⟨some "Vaigai", none, some 2015, some "Post-Monsoon",
      [("EC", some 420), ("TDS", some 760)]⟩]

/-- A single complete row: one complete case, every variance zero. -/
def c2rows1 : List Row :=
  [⟨some "Vaigai", none, some 2015, some "Pre-Monsoon",
      [("EC", some 400), ("TDS", some 800)]⟩]

/-- A dataset whose only record does not match basin "Vaigai". -/
def c3df : List Row :=
  [⟨some "Cauvery", none, some 2015, some "Pre-Monsoon", [("EC", some 400)]⟩]

/-- One matching row, hence exactly one complete case for correlation. -/
def c5df : List Row :=
  [⟨some "Vaigai", none, some 2015, some "Pre-Monsoon",
      [("EC", some 400), ("TDS", some 800)]⟩]

/-- One year, the "Pre-Monsoon" season appearing before "Post-Monsoon". -/
def c7rows : List Row :=
  [⟨some "Vaigai", none, some 2015, some "Pre-Monsoon", [("EC", some 400)]⟩,
   ⟨some "Vaigai", none, some 2015, some "Post-Monsoon", [("EC", some 420)]⟩]

/-- A row with a null `TDS` cell: dropped by `dropna()`. -/
def c9nullRow : Row :=
  ⟨some "Vaigai", none, some 2016, some "Post-Monsoon",
      [("EC", some 410), ("TDS", none)]⟩

/-- A complete row, the base dataset of the complete-case witness. -/
def c9rows : List Row :=
  [⟨some "Vaigai", none, some 2015, some "Pre-Monsoon",
      [("EC", some 400), ("TDS", some 800)]⟩]

/-!
## Theorems
-/

theorem count_filter_eq {α : Type} [DecidableEq α] (p : α → Bool) (l : List α) (a : α) :
    (l.filter p).count a = if p a then l.count a else 0 := by
  induction l with
  | nil => simp
  | cons x xs ih =>
    by_cases hx : p x
    · by_cases hxa : x = a
      · subst hxa
        simp [List.filter_cons, hx, List.count_cons, ih]
      · simp [List.filter_cons, hx, List.count_cons, ih, hxa]
    · by_cases hxa : x = a
      · subst hxa
        simp [List.filter_cons, hx, List.count_cons, ih]
      · simp [List.filter_cons, hx, List.count_cons, ih, hxa]

theorem filtered_eq_filter (df : List Row) (basin : String) (y0 y1 : Int) :
    filtered df basin y0 y1 = df.filter (matchesB basin y0 y1) := by
  unfold filtered filter_by_year matchesB
  rw [List.filter_filter]
  exact List.filter_congr fun r _ => Bool.and_comm _ _

theorem matchesB_iff (basin : String) (y0 y1 : Int) (r : Row) :
    matchesB basin y0 y1 r = true ↔
      r.basin = some basin ∧ ∃ y, r.year = some y ∧ y0 ≤ y ∧ y ≤ y1 := by
  unfold matchesB
  cases hy : r.year with
  | none => simp [hy]
  | some y =>
    simp only [hy, Bool.and_eq_true, decide_eq_true_eq, Option.some.injEq]
    constructor
    · rintro ⟨hb, h1, h2⟩
      exact ⟨hb, y, rfl, h1, h2⟩
    · rintro ⟨hb, y', hy', h1, h2⟩
      cases hy'
      exact ⟨hb, h1, h2⟩

/-- C1: for every dataset, basin and year bounds `y0 ≤ y1`, the filter
returns exactly the records whose basin equals the given one (exact,
case-sensitive match) and whose year is non-null and within `[y0, y1]`;
every occurrence of such a record is kept (no omission) and no occurrence
is added (no duplication), stated by preservation of multiplicities. -/
theorem filter_exact (df : List Row) (basin : String) (y0 y1 : Int)
    (h : y0 ≤ y1) (r : Row) :
    ((filtered df basin y0 y1).count r =
        if matchesB basin y0 y1 r then df.count r else 0)
  ∧ (matchesB basin y0 y1 r = true ↔
        r.basin = some basin ∧ ∃ y, r.year = some y ∧ y0 ≤ y ∧ y ≤ y1)
  ∧ (r ∈ filtered df basin y0 y1 ↔ r ∈ df ∧ matchesB basin y0 y1 r = true) := by
  refine ⟨?_, matchesB_iff basin y0 y1 r, ?_⟩
  · rw [filtered_eq_filter]
    exact count_filter_eq _ df r
  · rw [filtered_eq_filter, List.mem_filter]

theorem filter_exact_witness :
    (0 : Int) ≤ 3000 ∧
    ((filtered [⟨some "Vaigai", none, some 2015, some "Pre-Monsoon", [("EC", some 400)]⟩]
        "Vaigai" 0 3000).count
        ⟨some "Vaigai", none, some 2015, some "Pre-Monsoon", [("EC", some 400)]⟩ =
      if matchesB "Vaigai" 0 3000
          ⟨some "Vaigai", none, some 2015, some "Pre-Monsoon", [("EC", some 400)]⟩ then
        ([⟨some "Vaigai", none, some 2015, some "Pre-Monsoon", [("EC", some 400)]⟩] :
            List Row).count
          ⟨some "Vaigai", none, some 2015, some "Pre-Monsoon", [("EC", some 400)]⟩
      else 0) :=
  ⟨by decide,
   (filter_exact [⟨some "Vaigai", none, some 2015, some "Pre-Monsoon", [("EC", some 400)]⟩]
      "Vaigai" 0 3000 (by decide)
      ⟨some "Vaigai", none, some 2015, some "Pre-Monsoon", [("EC", some 400)]⟩).1⟩

/-- C10: a column is an analysis parameter iff its dtype is numeric and its
name is not one of exactly `OBJECTID_12`, `Latitude`, `Longitude`, `Year`;
no other name (identifier-like or not) is excluded. -/
theorem parameters_exact (sch : Schema) (c : String) :
    c ∈ parameters sch ↔
      c ∈ select_number sch ∧
        c ∉ (["OBJECTID_12", "Latitude", "Longitude", "Year"] : List String) := by
  unfold parameters exclude_cols
  rw [List.mem_filter]
  simp

/-- C8: loading never fails on a per-row date parse failure (every raw row
yields exactly one loaded row), the derived year is null exactly when the
coerced date is null, and rows with a null year are excluded from the
year-dependent filter. -/
theorem date_coercion (raws : List RawRow) :
    (load_data raws).length = raws.length
  ∧ (∀ r ∈ load_data raws, (r.year = none ↔ r.date = none))
  ∧ (∀ (df : List Row) (y0 y1 : Int), ∀ r ∈ filter_by_year df y0 y1,
      ∃ y, r.year = some y) := by
  refine ⟨by simp [load_data], ?_, ?_⟩
  · intro r hr
    rw [load_data, List.mem_map] at hr
    obtain ⟨rr, _, hrr⟩ := hr
    subst hrr
    cases to_datetime rr.dateCell <;> simp
  · intro df y0 y1 r hr
    rw [filter_by_year, List.mem_filter] at hr
    cases hy : r.year with
    | none => simp [hy] at hr
    | some y => exact ⟨y, rfl⟩

theorem date_coercion_witness :
    (load_data [⟨some "Vaigai", some "not-a-date", some "Pre-Monsoon", []⟩,
                ⟨some "Vaigai", some "2015-06-01", some "Pre-Monsoon", []⟩]).length = 2
  ∧ (⟨some "Vaigai", none, none, some "Pre-Monsoon", []⟩ ∈
        load_data [⟨some "Vaigai", some "not-a-date", some "Pre-Monsoon", []⟩,
                   ⟨some "Vaigai", some "2015-06-01", some "Pre-Monsoon", []⟩] →
      ((⟨some "Vaigai", none, none, some "Pre-Monsoon", []⟩ : Row).year = none ↔
        (⟨some "Vaigai", none, none, some "Pre-Monsoon", []⟩ : Row).date = none)) :=
  ⟨(date_coercion [⟨some "Vaigai", some "not-a-date", some "Pre-Monsoon", []⟩,
      ⟨some "Vaigai", some "2015-06-01", some "Pre-Monsoon", []⟩]).1,
   fun h =>
    (date_coercion [⟨some "Vaigai", some "not-a-date", some "Pre-Monsoon", []⟩,
        ⟨some "Vaigai", some "2015-06-01", some "Pre-Monsoon", []⟩]).2.1 _ h⟩

theorem stat_std_recognized_cex :
    "std" ∉ (["mean", "median", "min", "max", "standard_deviation", "count"] : List String)
  ∧ aggStat "std" [] = Except.ok none := by
  constructor
  · decide
  · rfl

/-- C4 (amended): the recognized statistic set is `{mean, median, min,
max, std, count}`; a single requested name outside it — `avg` included —
makes the aggregation call fail, and a statistics list containing any
unrecognized name makes the whole grouped aggregation fail, rather than
silently falling back to any statistic. -/
theorem unknown_stat_rejected (s : String) (vals : List (Option ℚ))
    (rows : List Row) (param : String) (stats : List String)
    (hs : s ∉ STAT_OPTIONS) (hb : s ∈ stats) :
    aggStat s vals = Except.error AggError.invalidStatistic
  ∧ results rows param stats = Except.error AggError.invalidStatistic := by
  constructor
  · unfold aggStat isValidStat
    simp [hs]
  · unfold results
    have hall : ¬ stats.all isValidStat = true := by
      simp only [List.all_eq_true, not_forall]
      exact ⟨s, ⟨hb, by simp [isValidStat, hs]⟩⟩
    simp [hall]

theorem unknown_stat_rejected_witness :
    "avg" ∉ STAT_OPTIONS ∧ "avg" ∈ (["avg"] : List String) ∧
    (aggStat "avg" [some 1, some 2] = Except.error AggError.invalidStatistic
      ∧ results c7rows "EC" ["avg"] = Except.error AggError.invalidStatistic) :=
  ⟨by decide, by decide,
   unknown_stat_rejected "avg" [some 1, some 2] c7rows "EC" ["avg"]
     (by decide) (by decide)⟩

theorem nonnull_count_filterMap (vals : List (Option ℚ)) :
    (vals.filterMap id).length = vals.countP fun c => c.isSome := by
  induction vals with
  | nil => rfl
  | cons c t ih => cases c <;> simp [List.filterMap_cons, List.countP_cons, ih]

theorem scAux_self_nonneg (m : ℚ) (xs : List ℚ) : 0 ≤ scAux m m xs xs := by
  induction xs with
  | nil => simp [scAux]
  | cons a t ih =>
    have ha : 0 ≤ (a - m) * (a - m) := mul_self_nonneg _
    calc (0 : ℚ) ≤ (a - m) * (a - m) + scAux m m t t := by linarith
    _ = scAux m m (a :: t) (a :: t) := by rw [scAux]

theorem sc_self_nonneg (xs : List ℚ) : 0 ≤ sc xs xs := scAux_self_nonneg _ xs

/-- C6: over one group's cells, `count` is the number of non-null values;
`std` is `NaN` exactly when fewer than two non-null values exist, and
otherwise is the nonnegative real whose square is the sample variance with
`ddof = 1` (the centered square sum over `n - 1`) of the non-null values. -/
theorem std_count_semantics (vals : List (Option ℚ)) :
    (aggStatVal "count" vals = some ((vals.countP fun c => c.isSome : ℕ) : ℝ))
  ∧ ((vals.filterMap id).length < 2 → aggStatVal "std" vals = none)
  ∧ (∀ x : ℝ, aggStatVal "std" vals = some x →
      2 ≤ (vals.filterMap id).length ∧ 0 ≤ x ∧
        x ^ 2 = ((sc (vals.filterMap id) (vals.filterMap id) : ℚ) : ℝ) /
          (((vals.filterMap id).length : ℝ) - 1)) := by
  have hcount : aggStatVal "count" vals = some (((vals.filterMap id).length : ℕ) : ℝ) := rfl
  have hstd : aggStatVal "std" vals = (sampleVarQ vals).map fun v : ℚ => Real.sqrt (v : ℝ) := rfl
  refine ⟨?_, ?_, ?_⟩
  · rw [hcount, nonnull_count_filterMap]
  · intro hlt
    rw [hstd]
    unfold sampleVarQ
    simp only [if_pos hlt, Option.map_none']
  · intro x hx
    rw [hstd] at hx
    rw [Option.map_eq_some'] at hx
    obtain ⟨v, hv, hxv⟩ := hx
    unfold sampleVarQ at hv
    by_cases hlt : (vals.filterMap id).length < 2
    · simp [hlt] at hv
    · simp only [if_neg hlt, Option.some.injEq] at hv
      have h2 : 2 ≤ (vals.filterMap id).length := Nat.le_of_not_lt hlt
      have hn1 : (1 : ℚ) ≤ ((vals.filterMap id).length : ℚ) - 1 := by
        have : (2 : ℚ) ≤ ((vals.filterMap id).length : ℚ) := by exact_mod_cast h2
        linarith
      have hv0 : 0 ≤ v := by
        rw [← hv]
        exact div_nonneg (sc_self_nonneg _) (by linarith)
      have hvr : ((v : ℚ) : ℝ) =
          ((sc (vals.filterMap id) (vals.filterMap id) : ℚ) : ℝ) /
            (((vals.filterMap id).length : ℝ) - 1) := by
        rw [← hv]
        push_cast
        ring
      refine ⟨h2, ?_, ?_⟩
      · rw [← hxv]
        exact Real.sqrt_nonneg _
      · rw [← hxv, sq, Real.mul_self_sqrt (by exact_mod_cast hv0 : (0:ℝ) ≤ (v:ℝ))]
        exact hvr

theorem std_count_semantics_witness :
    aggStatVal "count" [some 1, none, some 3] =
      some ((([some (1:ℚ), none, some 3] : List (Option ℚ)).countP fun c => c.isSome : ℕ) : ℝ)
  ∧ aggStatVal "std" [some 1] = none :=
  ⟨(std_count_semantics [some 1, none, some 3]).1,
   (std_count_semantics [some 1]).2.1 (by decide)⟩

/-- C3: when no record matches the selected basin and year range, the
filter returns the empty subset (not an error), and both the Descriptive
Statistics branch and the Correlation Analysis branch report the "no data"
outcome instead of raising. -/
theorem empty_selection_no_data (df : List Row) (basin : String) (y0 y1 : Int)
    (param : String) (stats : List String) (cols : List String) (method : String)
    (h : ∀ r ∈ df, matchesB basin y0 y1 r = false) :
    filtered df basin y0 y1 = []
  ∧ descriptiveBranch df basin y0 y1 param stats = DescOutcome.noData
  ∧ correlationBranch df basin y0 y1 cols method = CorrOutcome.noData := by
  have hf : filtered df basin y0 y1 = [] := by
    rw [filtered_eq_filter]
    rw [List.filter_eq_nil_iff]
    intro a ha
    simp [h a ha]
  refine ⟨hf, ?_, ?_⟩
  · unfold descriptiveBranch
    simp [hf]
  · unfold correlationBranch
    simp [hf]

theorem empty_selection_no_data_witness :
    (∀ r ∈ c3df, matchesB "Vaigai" 2000 2020 r = false)
  ∧ (filtered c3df "Vaigai" 2000 2020 = []
      ∧ descriptiveBranch c3df "Vaigai" 2000 2020 "EC" ["mean"] = DescOutcome.noData
      ∧ correlationBranch c3df "Vaigai" 2000 2020 ["EC"] "pearson" = CorrOutcome.noData) :=
  ⟨by decide,
   empty_selection_no_data c3df "Vaigai" 2000 2020 "EC" ["mean"] ["EC"] "pearson"
     (by decide)⟩

theorem uniqueKeys_aux_nodup (l : List (Int × String)) :
    ∀ acc : List (Int × String), acc.Nodup →
      (l.foldl (fun acc k => if k ∈ acc then acc else acc ++ [k]) acc).Nodup := by
  induction l with
  | nil =>
    intro acc h
    simpa using h
  | cons x t ih =>
    intro acc h
    simp only [List.foldl_cons]
    by_cases hx : x ∈ acc
    · simpa [hx] using ih acc h
    · have hacc : (acc ++ [x]).Nodup := by
        rw [List.nodup_append]
        refine ⟨h, List.nodup_singleton x, ?_⟩
        intro a ha hax
        rw [List.mem_singleton] at hax
        subst hax
        exact hx ha
      simpa [hx] using ih _ hacc

theorem uniqueKeys_nodup (rows : List Row) : (uniqueKeys rows).Nodup :=
  uniqueKeys_aux_nodup _ [] List.nodup_nil

theorem charListLe_total (l1 l2 : List Char) :
    charListLe l1 l2 = true ∨ charListLe l2 l1 = true := by
  induction l1 generalizing l2 with
  | nil => exact Or.inl rfl
  | cons a as ih =>
    cases l2 with
    | nil => exact Or.inr rfl
    | cons b bs =>
      rcases lt_trichotomy a b with h | h | h
      · left
        simp [charListLe, h]
      · subst h
        rcases ih bs with h2 | h2
        · left
          simp [charListLe, lt_irrefl, h2]
        · right
          simp [charListLe, lt_irrefl, h2]
      · right
        simp [charListLe, h]

theorem keyLEb_total (a b : Int × String) :
    keyLEb a b = true ∨ keyLEb b a = true := by
  unfold keyLEb strLe
  rcases lt_trichotomy a.1 b.1 with h | h | h
  · left
    simp [h]
  · rcases charListLe_total a.2.data b.2.data with h2 | h2
    · left
      simp [h, h2]
    · right
      simp [h.symm, h2]
  · right
    simp [h]

theorem charListLe_trans (l1 l2 l3 : List Char)
    (h1 : charListLe l1 l2 = true) (h2 : charListLe l2 l3 = true) :
    charListLe l1 l3 = true := by
  induction l1 generalizing l2 l3 with
  | nil => rfl
  | cons a as ih =>
    cases l2 with
    | nil => simp [charListLe] at h1
    | cons b bs =>
      cases l3 with
      | nil => simp [charListLe] at h2
      | cons c cs =>
        by_cases hab : a < b
        · by_cases hbc : b < c
          · simp [charListLe, lt_trans hab hbc]
          · by_cases hcb : c < b
            · simp [charListLe, hbc, hcb] at h2
            · have hbc' : b = c := le_antisymm (not_lt.mp hcb) (not_lt.mp hbc)
              subst hbc'
              simp [charListLe, hab]
        · by_cases hba : b < a
          · simp [charListLe, hab, hba] at h1
          · have hab' : a = b := le_antisymm (not_lt.mp hba) (not_lt.mp hab)
            subst hab'
            simp only [charListLe, lt_irrefl, if_false] at h1
            by_cases hac : a < c
            · simp [charListLe, hac]
            · by_cases hca : c < a
              · simp [charListLe, hac, hca] at h2
              · have hac' : a = c := le_antisymm (not_lt.mp hca) (not_lt.mp hac)
                subst hac'
                simp only [charListLe, lt_irrefl, if_false] at h2 ⊢
                exact ih bs cs h1 h2

theorem keyLEb_trans (a b c : Int × String)
    (h1 : keyLEb a b = true) (h2 : keyLEb b c = true) : keyLEb a c = true := by
  unfold keyLEb strLe at h1 h2 ⊢
  simp only [Bool.or_eq_true, Bool.and_eq_true, decide_eq_true_eq] at h1 h2 ⊢
  rcases h1 with h1 | ⟨e1, s1⟩
  · rcases h2 with h2 | ⟨e2, s2⟩
    · exact Or.inl (h1.trans h2)
    · exact Or.inl (e2 ▸ h1)
  · rcases h2 with h2 | ⟨e2, s2⟩
    · exact Or.inl (e1 ▸ h2)
    · exact Or.inr ⟨e1.trans e2, charListLe_trans _ _ _ s1 s2⟩

theorem insertKey_perm (le : (Int × String) → (Int × String) → Bool)
    (k : Int × String) (l : List (Int × String)) :
    (insertKey le k l).Perm (k :: l) := by
  induction l with
  | nil => exact List.Perm.refl _
  | cons x xs ih =>
    by_cases h : le k x = true
    · simp [insertKey, h]
    · simp only [insertKey, if_neg h]
      exact (ih.cons x).trans (List.Perm.swap k x xs)

theorem sortKeys_perm (le : (Int × String) → (Int × String) → Bool)
    (l : List (Int × String)) : (sortKeys le l).Perm l := by
  induction l with
  | nil => exact List.Perm.refl _
  | cons x xs ih =>
    have h1 : sortKeys le (x :: xs) = insertKey le x (sortKeys le xs) := rfl
    rw [h1]
    exact (insertKey_perm le x _).trans (ih.cons x)

theorem sorted_insertKey (le : (Int × String) → (Int × String) → Bool)
    (htot : ∀ a b, le a b = true ∨ le b a = true)
    (htrans : ∀ a b c, le a b = true → le b c = true → le a c = true)
    (k : Int × String) (l : List (Int × String))
    (hl : List.Sorted (fun a b => le a b = true) l) :
    List.Sorted (fun a b => le a b = true) (insertKey le k l) := by
  induction l with
  | nil => simp [insertKey]
  | cons x xs ih =>
    rw [List.sorted_cons] at hl
    obtain ⟨hx, hxs⟩ := hl
    by_cases h : le k x = true
    · simp only [insertKey, if_pos h]
      rw [List.sorted_cons]
      refine ⟨?_, ?_⟩
      · intro y hy
        rcases List.mem_cons.mp hy with rfl | hy'
        · exact h
        · exact htrans k x y h (hx y hy')
      · rw [List.sorted_cons]
        exact ⟨hx, hxs⟩
    · simp only [insertKey, if_neg h]
      rw [List.sorted_cons]
      refine ⟨?_, ih hxs⟩
      intro y hy
      have hy' := (insertKey_perm le k xs).mem_iff.mp hy
      rcases List.mem_cons.mp hy' with hyk | hy''
      · rw [hyk]
        exact (htot k x).resolve_left h
      · exact hx y hy''

theorem sortKeys_sorted (le : (Int × String) → (Int × String) → Bool)
    (htot : ∀ a b, le a b = true ∨ le b a = true)
    (htrans : ∀ a b c, le a b = true → le b c = true → le a c = true)
    (l : List (Int × String)) :
    List.Sorted (fun a b => le a b = true) (sortKeys le l) := by
  induction l with
  | nil => simp [sortKeys]
  | cons x xs ih => exact sorted_insertKey le htot htrans x _ ih

theorem output_order_cex :
    resultKeys c7rows = [(2015, "Post-Monsoon"), (2015, "Pre-Monsoon")]
  ∧ specClaimedKeys c7rows = [(2015, "Pre-Monsoon"), (2015, "Post-Monsoon")]
  ∧ resultKeys c7rows ≠ specClaimedKeys c7rows := by
  refine ⟨by decide, by decide, by decide⟩

/-- C7 (amended): the aggregation output has exactly one row per distinct
`(year, season)` group, in an order that is deterministic for a given
input but is the ascending lexicographic `(year, season)` order — seasons
within one year sorted by code points, NOT by first appearance in the
filtered subset. -/
theorem output_order (rows : List Row) (param : String) (stats : List String)
    (t : List ((Int × String) × List (Option ℝ)))
    (ht : results rows param stats = Except.ok t) :
    t.map Prod.fst = resultKeys rows
  ∧ List.Sorted (fun a b => keyLEb a b = true) (resultKeys rows)
  ∧ (resultKeys rows).Perm (uniqueKeys rows)
  ∧ (resultKeys rows).Nodup := by
  have hperm : (resultKeys rows).Perm (uniqueKeys rows) :=
    sortKeys_perm keyLEb _
  refine ⟨?_, sortKeys_sorted keyLEb keyLEb_total keyLEb_trans _, hperm,
    hperm.symm.nodup (uniqueKeys_nodup rows)⟩
  unfold results at ht
  by_cases hall : stats.all isValidStat = true
  · rw [if_pos hall] at ht
    rw [Except.ok.injEq] at ht
    rw [← ht, List.map_map]
    have hcomp : (Prod.fst ∘ fun k : Int × String =>
        (k, stats.map fun s => aggStatVal s (groupVals rows param k))) = id := rfl
    rw [hcomp, List.map_id]
  · rw [if_neg hall] at ht
    exact Except.noConfusion ht

theorem output_order_witness :
    results c7rows "EC" ["mean"] =
      Except.ok ((resultKeys c7rows).map fun k =>
        (k, (["mean"] : List String).map fun s => aggStatVal s (groupVals c7rows "EC" k)))
  ∧ (((resultKeys c7rows).map fun k =>
        (k, (["mean"] : List String).map fun s =>
          aggStatVal s (groupVals c7rows "EC" k))).map Prod.fst = resultKeys c7rows
      ∧ List.Sorted (fun a b => keyLEb a b = true) (resultKeys c7rows)
      ∧ (resultKeys c7rows).Perm (uniqueKeys c7rows)
      ∧ (resultKeys c7rows).Nodup) := by
  have ht : results c7rows "EC" ["mean"] =
      Except.ok ((resultKeys c7rows).map fun k =>
        (k, (["mean"] : List String).map fun s => aggStatVal s (groupVals c7rows "EC" k))) := by
    unfold results
    rfl
  exact ⟨ht, output_order c7rows "EC" ["mean"] _ ht⟩

theorem scAux_comm (mx my : ℚ) (xs ys : List ℚ) :
    scAux mx my xs ys = scAux my mx ys xs := by
  induction xs generalizing ys with
  | nil => cases ys <;> simp [scAux]
  | cons a as ih =>
    cases ys with
    | nil => simp [scAux]
    | cons b bs =>
      simp only [scAux, ih bs]
      ring

theorem sc_comm (xs ys : List ℚ) : sc xs ys = sc ys xs := scAux_comm _ _ xs ys

theorem scAux_cauchy_schwarz (mx my : ℚ) (xs ys : List ℚ) :
    scAux mx my xs ys ^ 2 ≤ scAux mx mx xs xs * scAux my my ys ys := by
  induction xs generalizing ys with
  | nil =>
    cases ys <;> simp [scAux]
  | cons a as ih =>
    cases ys with
    | nil =>
      simp [scAux]
    | cons b bs =>
      have hA : 0 ≤ scAux mx mx as as := scAux_self_nonneg mx as
      have hB : 0 ≤ scAux my my bs bs := scAux_self_nonneg my bs
      have hS := ih bs
      rcases eq_or_lt_of_le hB with hB0 | hBpos
      · have h1 : scAux mx my as bs ^ 2 = 0 :=
          le_antisymm (by nlinarith) (sq_nonneg _)
        have hS0 := sq_eq_zero_iff.mp h1
        simp only [scAux]
        rw [← hB0, hS0]
        nlinarith [mul_nonneg hA (mul_self_nonneg (b - my))]
      · simp only [scAux]
        nlinarith [sq_nonneg ((a - mx) * scAux my my bs bs - (b - my) * scAux mx my as bs),
          mul_nonneg (sub_nonneg.mpr hS) (sq_nonneg (b - my)),
          mul_nonneg (sub_nonneg.mpr hS) hB,
          hBpos, hS]

theorem sc_cauchy_schwarz (xs ys : List ℚ) :
    sc xs ys ^ 2 ≤ sc xs xs * sc ys ys :=
  scAux_cauchy_schwarz (meanQ xs) (meanQ ys) xs ys

theorem scAux_self_eq_zero (m : ℚ) (xs : List ℚ) (h : scAux m m xs xs = 0) :
    ∀ a ∈ xs, a = m := by
  induction xs with
  | nil => simp
  | cons a as ih =>
    simp only [scAux] at h
    have h1 : 0 ≤ (a - m) * (a - m) := mul_self_nonneg _
    have h2 : 0 ≤ scAux m m as as := scAux_self_nonneg m as
    have ha : (a - m) * (a - m) = 0 := by linarith
    have has : scAux m m as as = 0 := by linarith
    intro x hx
    rcases List.mem_cons.mp hx with hxa | hx'
    · subst hxa
      have := sub_eq_zero.mp (mul_self_eq_zero.mp ha)
      linarith
    · exact ih has x hx'

theorem isConst_of_sc_self_eq_zero (xs : List ℚ) (h : sc xs xs = 0) : IsConst xs := by
  intro a ha b hb
  have h1 := scAux_self_eq_zero (meanQ xs) xs h a ha
  have h2 := scAux_self_eq_zero (meanQ xs) xs h b hb
  rw [h1, h2]

theorem sc_self_ne_zero (xs : List ℚ) (h : ¬ IsConst xs) : sc xs xs ≠ 0 :=
  fun h0 => h (isConst_of_sc_self_eq_zero xs h0)

theorem sc_self_zero_of_short (xs : List ℚ) (h : xs.length ≤ 1) : sc xs xs = 0 := by
  cases xs with
  | nil => rfl
  | cons x t =>
    cases t with
    | nil => simp [sc, scAux, meanQ]
    | cons y u => simp at h

theorem countP_lt_add_eq_le (a b : ℚ) (hab : a < b) (xs : List ℚ) :
    (xs.countP fun x => decide (x < a)) + (xs.countP fun x => decide (x = a))
      ≤ xs.countP fun x => decide (x < b) := by
  induction xs with
  | nil => simp
  | cons x t ih =>
    simp only [List.countP_cons]
    by_cases h1 : x < a
    · have h2 : ¬ x = a := fun e => absurd h1 (by rw [e]; exact lt_irrefl a)
      have h3 : x < b := h1.trans hab
      simp [h1, h2, h3]
      omega
    · by_cases h2 : x = a
      · subst h2
        simp [lt_irrefl, hab]
        omega
      · by_cases h3 : x < b
        · simp [h1, h2, h3]
          omega
        · simp [h1, h2, h3]
          omega

theorem rankVal_strict_mono (xs : List ℚ) (a b : ℚ) (ha : a ∈ xs) (hb : b ∈ xs)
    (hab : a < b) : rankVal xs a < rankVal xs b := by
  have hca : 0 < xs.countP fun x => decide (x = a) :=
    List.countP_pos_iff.mpr ⟨a, ha, by simp⟩
  have hcb : 0 < xs.countP fun x => decide (x = b) :=
    List.countP_pos_iff.mpr ⟨b, hb, by simp⟩
  have hkey := countP_lt_add_eq_le a b hab xs
  unfold rankVal
  have h1 : ((xs.countP fun x => decide (x < a)) : ℚ) +
      ((xs.countP fun x => decide (x = a)) : ℚ) ≤
      ((xs.countP fun x => decide (x < b)) : ℚ) := by
    exact_mod_cast hkey
  have h2 : (1 : ℚ) ≤ ((xs.countP fun x => decide (x = a)) : ℚ) := by
    exact_mod_cast hca
  have h3 : (1 : ℚ) ≤ ((xs.countP fun x => decide (x = b)) : ℚ) := by
    exact_mod_cast hcb
  linarith

theorem rankCol_not_const (xs : List ℚ) (h : ¬ IsConst xs) :
    ¬ IsConst (rankCol xs) := by
  unfold IsConst at h
  push_neg at h
  obtain ⟨a, ha, b, hb, hab⟩ := h
  intro hc
  have h1 : rankVal xs a ∈ rankCol xs := List.mem_map_of_mem _ ha
  have h2 : rankVal xs b ∈ rankCol xs := List.mem_map_of_mem _ hb
  have heq := hc _ h1 _ h2
  rcases lt_or_gt_of_ne hab with hlt | hgt
  · exact absurd heq (ne_of_lt (rankVal_strict_mono xs a b ha hb hlt))
  · exact absurd heq.symm (ne_of_lt (rankVal_strict_mono xs b a hb ha hgt))

theorem pearsonEntry_comm (xs ys : List ℚ) :
    pearsonEntry xs ys = pearsonEntry ys xs := by
  unfold pearsonEntry
  by_cases hx : sc xs xs = 0 <;> by_cases hy : sc ys ys = 0 <;>
    simp [hx, hy, sc_comm xs ys, mul_comm]

theorem pearsonEntry_diag (xs : List ℚ) (h : sc xs xs ≠ 0) :
    pearsonEntry xs xs = some 1 := by
  unfold pearsonEntry
  rw [if_neg (by simp [h])]
  have hpos : 0 < sc xs xs := lt_of_le_of_ne (sc_self_nonneg xs) (Ne.symm h)
  have hposr : (0 : ℝ) < ((sc xs xs : ℚ) : ℝ) := by exact_mod_cast hpos
  have hcast : ((sc xs xs * sc xs xs : ℚ) : ℝ) =
      ((sc xs xs : ℚ) : ℝ) * ((sc xs xs : ℚ) : ℝ) := by push_cast; ring
  rw [hcast, Real.sqrt_mul_self hposr.le, div_self (ne_of_gt hposr)]

theorem pearsonEntry_bounds (xs ys : List ℚ) (hx : sc xs xs ≠ 0)
    (hy : sc ys ys ≠ 0) :
    ∃ r : ℝ, pearsonEntry xs ys = some r ∧ -1 ≤ r ∧ r ≤ 1 := by
  unfold pearsonEntry
  rw [if_neg (by simp [hx, hy])]
  refine ⟨_, rfl, ?_⟩
  have hxp : 0 < sc xs xs := lt_of_le_of_ne (sc_self_nonneg xs) (Ne.symm hx)
  have hyp : 0 < sc ys ys := lt_of_le_of_ne (sc_self_nonneg ys) (Ne.symm hy)
  have hD : (0 : ℝ) < ((sc xs xs * sc ys ys : ℚ) : ℝ) := by
    exact_mod_cast mul_pos hxp hyp
  have hsq : (0 : ℝ) < Real.sqrt ((sc xs xs * sc ys ys : ℚ) : ℝ) :=
    Real.sqrt_pos.mpr hD
  have hnum : ((sc xs ys : ℚ) : ℝ) ^ 2 ≤ ((sc xs xs * sc ys ys : ℚ) : ℝ) := by
    exact_mod_cast sc_cauchy_schwarz xs ys
  have habs : |((sc xs ys : ℚ) : ℝ)| ≤ Real.sqrt ((sc xs xs * sc ys ys : ℚ) : ℝ) := by
    rw [← Real.sqrt_sq_eq_abs]
    exact Real.sqrt_le_sqrt hnum
  have hr : |((sc xs ys : ℚ) : ℝ) / Real.sqrt ((sc xs xs * sc ys ys : ℚ) : ℝ)| ≤ 1 := by
    rw [abs_div, abs_of_pos hsq]
    exact div_le_one_of_le₀ habs hsq.le
  exact abs_le.mp hr

theorem corrEntry_comm (method : String) (xs ys : List ℚ) :
    corrEntry method xs ys = corrEntry method ys xs := by
  unfold corrEntry spearmanEntry
  by_cases h1 : method = "pearson"
  · simp [h1, pearsonEntry_comm]
  · by_cases h2 : method = "spearman" <;> simp [h1, h2, pearsonEntry_comm]

theorem corr_method_valid_iff (method : String) :
    corr_method_valid method = true ↔ method = "pearson" ∨ method = "spearman" := by
  unfold corr_method_valid
  simp

theorem corrEntry_diag (method : String) (hm : corr_method_valid method = true)
    (xs : List ℚ) (h : ¬ IsConst xs) : corrEntry method xs xs = some 1 := by
  have hxne : sc xs xs ≠ 0 := sc_self_ne_zero xs h
  rcases (corr_method_valid_iff method).mp hm with h1 | h1 <;> subst h1
  · simpa [corrEntry] using pearsonEntry_diag xs hxne
  · have hrne : sc (rankCol xs) (rankCol xs) ≠ 0 :=
      sc_self_ne_zero _ (rankCol_not_const xs h)
    simpa [corrEntry, spearmanEntry] using pearsonEntry_diag _ hrne

theorem corrEntry_bounds (method : String) (hm : corr_method_valid method = true)
    (xs ys : List ℚ) (hx : ¬ IsConst xs) (hy : ¬ IsConst ys) :
    ∃ r : ℝ, corrEntry method xs ys = some r ∧ -1 ≤ r ∧ r ≤ 1 := by
  rcases (corr_method_valid_iff method).mp hm with h1 | h1 <;> subst h1
  · simpa [corrEntry] using
      pearsonEntry_bounds xs ys (sc_self_ne_zero xs hx) (sc_self_ne_zero ys hy)
  · simpa [corrEntry, spearmanEntry] using
      pearsonEntry_bounds _ _ (sc_self_ne_zero _ (rankCol_not_const xs hx))
        (sc_self_ne_zero _ (rankCol_not_const ys hy))

theorem corrEntry_none_of_short (method : String)
    (hm : corr_method_valid method = true) (xs ys : List ℚ)
    (h : xs.length ≤ 1) : corrEntry method xs ys = none := by
  rcases (corr_method_valid_iff method).mp hm with h1 | h1 <;> subst h1
  · have h0 := sc_self_zero_of_short xs h
    simp [corrEntry, pearsonEntry, h0]
  · have hlen : (rankCol xs).length ≤ 1 := by simpa [rankCol] using h
    have h0 := sc_self_zero_of_short _ hlen
    simp [corrEntry, spearmanEntry, pearsonEntry, h0]

theorem getD_range_map {α : Type} (f : Nat → α) (n i : Nat) (d : α) (h : i < n) :
    ((List.range n).map f).getD i d = f i := by
  rw [List.getD_eq_getElem?_getD, List.getElem?_map, List.getElem?_range h]
  rfl

theorem entryAt_corrGrid (method : String) (cols : List String) (rows : List Row)
    (i j : Nat) (hi : i < cols.length) (hj : j < cols.length) :
    entryAt (corrGrid method cols rows) i j =
      corrEntry method (colm i (corr_df cols rows)) (colm j (corr_df cols rows)) := by
  unfold corrGrid entryAt
  rw [getD_range_map _ _ _ _ hi, getD_range_map _ _ _ _ hj]

/-- C2 (amended): for both offered methods, whenever every selected column
is non-constant over the complete-case rows (so at least two complete rows
exist), the correlation matrix is symmetric, every diagonal entry is
exactly 1.0, and every entry is a real in `[-1, 1]`.  (With a constant
column — which includes the case of a single complete row — the affected
entries, diagonal included, are `NaN` instead; see the counterexample.) -/
theorem corr_matrix_props (method : String) (cols : List String) (rows : List Row)
    (M : List (List (Option ℝ)))
    (hm : corr_method_valid method = true)
    (hM : corr method cols rows = Except.ok M)
    (hnc : ∀ j, j < cols.length → ¬ IsConst (colm j (corr_df cols rows))) :
    (∀ i, i < cols.length → ∀ j, j < cols.length → entryAt M i j = entryAt M j i)
  ∧ (∀ i, i < cols.length → entryAt M i i = some 1)
  ∧ (∀ i, i < cols.length → ∀ j, j < cols.length →
      ∃ r : ℝ, entryAt M i j = some r ∧ -1 ≤ r ∧ r ≤ 1) := by
  have hMg : M = corrGrid method cols rows := by
    unfold corr at hM
    rw [if_pos hm, Except.ok.injEq] at hM
    exact hM.symm
  subst hMg
  refine ⟨?_, ?_, ?_⟩
  · intro i hi j hj
    rw [entryAt_corrGrid method cols rows i j hi hj,
      entryAt_corrGrid method cols rows j i hj hi]
    exact corrEntry_comm method _ _
  · intro i hi
    rw [entryAt_corrGrid method cols rows i i hi hi]
    exact corrEntry_diag method hm _ (hnc i hi)
  · intro i hi j hj
    rw [entryAt_corrGrid method cols rows i j hi hj]
    exact corrEntry_bounds method hm _ _ (hnc i hi) (hnc j hj)

theorem corr_matrix_props_witness :
    corr_method_valid "pearson" = true
  ∧ (∀ j, j < (["EC", "TDS"] : List String).length →
      ¬ IsConst (colm j (corr_df ["EC", "TDS"] c2rows)))
  ∧ (∀ i, i < (["EC", "TDS"] : List String).length →
      entryAt (corrGrid "pearson" ["EC", "TDS"] c2rows) i i = some 1) :=
  ⟨rfl, by decide,
   (corr_matrix_props "pearson" ["EC", "TDS"] c2rows
      (corrGrid "pearson" ["EC", "TDS"] c2rows) rfl rfl (by decide)).2.1⟩

theorem corr_diag_nan_cex :
    (corr_df ["EC", "TDS"] c2rows1).length = 1
  ∧ corr "pearson" ["EC", "TDS"] c2rows1 =
      Except.ok (corrGrid "pearson" ["EC", "TDS"] c2rows1)
  ∧ entryAt (corrGrid "pearson" ["EC", "TDS"] c2rows1) 0 0 = none := by
  refine ⟨by decide, rfl, ?_⟩
  rw [entryAt_corrGrid "pearson" ["EC", "TDS"] c2rows1 0 0 (by decide) (by decide)]
  exact corrEntry_none_of_short "pearson" rfl _ _ (by decide)

theorem corr_insufficient_cex :
    (corr_df ["EC", "TDS"] (filtered c5df "Vaigai" 2015 2015)).length = 1
  ∧ correlationBranch c5df "Vaigai" 2015 2015 ["EC", "TDS"] "pearson" =
      CorrOutcome.matrix (corrGrid "pearson" ["EC", "TDS"]
        (filtered c5df "Vaigai" 2015 2015)) := by
  constructor
  · decide
  · rfl

/-- C5 (amended): a filtered subset that leaves fewer than two complete
rows does NOT make the Correlation Analysis branch fail: the matrix is
still produced, with every entry `NaN` (none).  The method is limited by
the radio widget to `pearson`/`spearman`; a name outside that set is the
one thing the correlation call rejects. -/
theorem corr_insufficient (df : List Row) (basin : String) (y0 y1 : Int)
    (cols : List String) (method : String)
    (hne : filtered df basin y0 y1 ≠ [])
    (h2 : (corr_df cols (filtered df basin y0 y1)).length ≤ 1)
    (hm : corr_method_valid method = true) :
    correlationBranch df basin y0 y1 cols method =
      CorrOutcome.matrix (corrGrid method cols (filtered df basin y0 y1))
  ∧ (∀ i, i < cols.length → ∀ j, j < cols.length →
      entryAt (corrGrid method cols (filtered df basin y0 y1)) i j = none)
  ∧ (∀ m2 : String, corr_method_valid m2 = false →
      corr m2 cols (filtered df basin y0 y1) = Except.error CorrError.unknownMethod) := by
  refine ⟨?_, ?_, ?_⟩
  · unfold correlationBranch
    rw [if_neg (by simpa using hne)]
    unfold corr
    rw [if_pos hm]
  · intro i hi j hj
    rw [entryAt_corrGrid method cols _ i j hi hj]
    apply corrEntry_none_of_short method hm
    simpa [colm] using h2
  · intro m2 hm2
    unfold corr
    rw [if_neg (by simp [hm2])]

theorem corr_insufficient_witness :
    (filtered c5df "Vaigai" 2015 2015 ≠ []
      ∧ (corr_df ["EC", "TDS"] (filtered c5df "Vaigai" 2015 2015)).length ≤ 1
      ∧ corr_method_valid "spearman" = true)
  ∧ (∀ i, i < (["EC", "TDS"] : List String).length →
      ∀ j, j < (["EC", "TDS"] : List String).length →
        entryAt (corrGrid "spearman" ["EC", "TDS"]
          (filtered c5df "Vaigai" 2015 2015)) i j = none) :=
  ⟨⟨by decide, by decide, rfl⟩,
   (corr_insufficient c5df "Vaigai" 2015 2015 ["EC", "TDS"] "spearman"
      (by decide) (by decide) rfl).2.1⟩

theorem allSome_eq_none_of_any_isNone (l : List (Option ℚ))
    (h : l.any (fun c => c.isNone) = true) : allSome l = none := by
  induction l with
  | nil => simp at h
  | cons c t ih =>
    cases c with
    | none => rfl
    | some q =>
      simp only [List.any_cons, Option.isNone_some, Bool.false_or] at h
      simp [allSome, ih h]

/-- C9: the Correlation Engine computes only over the complete cases: the
rows of `corr_df` are exactly the selected-column projections that have no
null cell, and appending a row with a null among the selected columns
leaves the whole correlation result unchanged. -/
theorem complete_case_corr (method : String) (cols : List String) (rows : List Row)
    (r : Row) (hr : (projParams cols r).any (fun c => c.isNone) = true) :
    (∀ xs, xs ∈ corr_df cols rows ↔ ∃ t ∈ rows, allSome (projParams cols t) = some xs)
  ∧ corr method cols (rows ++ [r]) = corr method cols rows := by
  constructor
  · intro xs
    unfold corr_df
    rw [List.mem_filterMap]
    constructor
    · rintro ⟨v, hv, hvs⟩
      rw [List.mem_map] at hv
      obtain ⟨t, ht, htv⟩ := hv
      exact ⟨t, ht, htv ▸ hvs⟩
    · rintro ⟨t, ht, hts⟩
      exact ⟨projParams cols t, List.mem_map_of_mem _ ht, hts⟩
  · have hdf : corr_df cols (rows ++ [r]) = corr_df cols rows := by
      unfold corr_df
      rw [List.map_append, List.filterMap_append]
      simp [allSome_eq_none_of_any_isNone _ hr]
    simp only [corr, corrGrid, hdf]

theorem complete_case_corr_witness :
    ((projParams ["EC", "TDS"] c9nullRow).any (fun c => c.isNone) = true)
  ∧ corr "pearson" ["EC", "TDS"] (c9rows ++ [c9nullRow]) =
      corr "pearson" ["EC", "TDS"] c9rows :=
  ⟨by decide,
   (complete_case_corr "pearson" ["EC", "TDS"] c9rows c9nullRow (by decide)).2⟩
